import Mathlib

/-!
Shallow embedding of the sPHENIX EMCal QA plotting scripts
(`OverlayedPlotGenerator` and `SinglePlotGenerator`), and proofs of the
specified properties of their normalization, energy-cut, per-run
session-composition, and interactive-configuration logic.

Histograms (`TH1F`) are modelled as lists of bins (center, content) over ℚ,
together with their total entry count.  ROOT file access is modelled as an
external store mapping run identifiers to optional result files; a result
file maps histogram names to optional histograms.  Floating-point bin
arithmetic is modelled exactly over ℚ.
-/

namespace QACode

/-- One histogram bin: its center value and its content. -/
structure Bin where
  center : ℚ
  content : ℚ
  deriving DecidableEq

/-- Shallow model of a ROOT `TH1F`: the list of bins (in bin-index order,
bins 1 through `GetNbinsX()`), plus the total entry count returned by
`GetEntries()`. -/
structure TH1F where
  bins : List Bin
  entries : ℤ
  deriving DecidableEq

/-- `TH1F::Scale(c)`: multiply every bin content by the constant `c`. -/
def TH1F.scale (h : TH1F) (c : ℚ) : TH1F :=
  ⟨h.bins.map (fun b => ⟨b.center, c * b.content⟩), h.entries⟩

/-- `OverlayPlotter::Normalize` (part_000, lines 189-197): if both
`nEvents > 0` and `nSEBs > 0`, scale the histogram by
`1.0 / (nEvents * nSEBs)`; otherwise leave it untouched. -/
def OverlayNormalize (h : TH1F) (nEvents nSEBs : ℤ) : TH1F :=
  if 0 < nEvents ∧ 0 < nSEBs then
    h.scale (1 / ((nEvents * nSEBs : ℤ) : ℚ))
  else
    h

/-- `SinglePlotter::Normalize` (SinglePlotGenerator.cpp, lines 162-166):
if both `nEvents > 0` and `nSEBs > 0`, scale the histogram by
`1.0 / (nEvents * nSEBs)`; otherwise leave it untouched. -/
def SingleNormalize (h : TH1F) (nEvents nSEBs : ℤ) : TH1F :=
  if 0 < nEvents ∧ 0 < nSEBs then
    h.scale (1 / ((nEvents * nSEBs : ℤ) : ℚ))
  else
    h

/-- `SinglePlotter::ApplyEnergyCut` (SinglePlotGenerator.cpp, lines 85-95):
for every bin whose center is below `cutValue`, set its content to zero. -/
def applyEnergyCut (hist : TH1F) (cutValue : ℚ) : TH1F :=
  ⟨hist.bins.map (fun b => if b.center < cutValue then ⟨b.center, 0⟩ else b),
   hist.entries⟩

/-- A successfully opened per-run result file (`qa.root`): lookup of a
histogram by name, as done by `TFile::Get`; `none` models a null pointer. -/
structure RootFile where
  get : String → Option TH1F

/-- The external histogram store: for a run identifier, `TFile::Open` either
yields a usable file or fails (`!file || file->IsZombie()`, modelled as
`none`). -/
def FileStore : Type := String → Option RootFile

/-- The draw option passed to `TH1F::Draw`: a fresh base plot (`"HIST"`) or
a composite onto the existing chart (`"HIST SAME"`). -/
inductive DrawMode where
  | hist
  | histSame
  deriving DecidableEq

/-- One rendered series on the overlay canvas: which run it came from, the
histogram as drawn (after optional normalization), and its draw option. -/
structure Series where
  run : String
  hist : TH1F
  mode : DrawMode
  deriving DecidableEq

/-- The overlay chart state: series rendered so far and legend entries
accumulated so far, both in rendering order. -/
structure PlotSession where
  series : List Series
  legend : List String
  deriving DecidableEq

/-- ROOT color expressions used in the overlay run table, kept as opaque
tokens; `white0` is the value-initialized default `Color_t()`. -/
inductive RootColor where
  | kBlue | kOrangeP7 | kBlack | kBlueP3 | kRed | kCyanP3 | kMagenta
  | kVioletP1 | kMagentaP2 | kAzureP4 | kAzureP2 | kPinkM3 | kOrangeP1
  | kGrayP1 | white0
  deriving DecidableEq

/-- `OverlayPlotter::RunData`: per-run display color and SEB count. -/
structure RunData where
  color : RootColor
  sebCount : ℤ
  deriving DecidableEq

/-- The hardcoded run table of `OverlayPlotter` (part_000, lines 82-98), as
an association list in source order. -/
def overlayRunDataMap : List (String × RunData) :=
  [("21813", ⟨.kBlue, 7⟩),
   ("21796", ⟨.kOrangeP7, 8⟩),
   ("21615", ⟨.kBlack, 8⟩),
   ("21599", ⟨.kBlueP3, 8⟩),
   ("21598", ⟨.kRed, 8⟩),
   ("21891", ⟨.kCyanP3, 7⟩),
   ("22979", ⟨.kMagenta, 5⟩),
   ("22950", ⟨.kVioletP1, 5⟩),
   ("22949", ⟨.kMagentaP2, 5⟩),
   ("22951", ⟨.kAzureP4, 5⟩),
   ("22982", ⟨.kAzureP2, 5⟩),
   ("21518", ⟨.kPinkM3, 8⟩),
   ("21520", ⟨.kOrangeP1, 8⟩),
   ("21889", ⟨.kGrayP1, 7⟩)]

/-- The hardcoded run table of `SinglePlotter` (SinglePlotGenerator.cpp,
lines 50-66): run identifier to SEB count, in source order. -/
def singleRunDataMap : List (String × ℤ) :=
  [("21813", 7),
   ("21796", 8),
   ("21615", 8),
   ("21599", 8),
   ("21598", 8),
   ("21891", 7),
   ("22979", 5),
   ("22950", 5),
   ("22949", 5),
   ("22951", 5),
   ("22982", 5),
   ("21518", 8),
   ("21520", 8),
   ("21889", 7)]

/-- `runDataMap_[run]` in `OverlayPlotter::OverlayRun`: association-list
lookup; the absent-key case yields the value-initialized `RunData`
(`unordered_map::operator[]` default-inserts). -/
def lookupRunData (run : String) : RunData :=
  ((overlayRunDataMap.find? (fun p => p.1 = run)).map Prod.snd).getD ⟨.white0, 0⟩

/-- SEB count the overlay script uses for a run. -/
def overlaySebOf (run : String) : ℤ := (lookupRunData run).sebCount

/-- SEB count the single-plot script pairs with a run in its table. -/
def singleSebOf (run : String) : ℤ :=
  ((singleRunDataMap.find? (fun p => p.1 = run)).map Prod.snd).getD 0

/-- The legend label `Form("Run: %s", run)` added by
`OverlayPlotter::OverlayRun`. -/
def legendLabel (run : String) : String := "Run: " ++ run

/-- `OverlayPlotter::OverlayRun` (part_000, lines 104-186), restricted to
the chart-state effects: on file or histogram failure the session is
returned unchanged; otherwise the (optionally normalized) histogram is
rendered — fresh iff the run equals `*runNumbers_.begin()` — and one legend
entry is appended. -/
def OverlayRun (store : FileStore) (runNumbers : List String)
    (normalize : Bool) (histName : String) (run : String)
    (s : PlotSession) : PlotSession :=
  match store run with
  | none => s
  | some file =>
    match file.get histName, file.get "hNClusters" with
    | some hist, some hNClusters =>
      let nEvents := hNClusters.entries
      let nSEBs := (lookupRunData run).sebCount
      let h2 := if normalize then OverlayNormalize hist nEvents nSEBs else hist
      let mode := if runNumbers.head? = some run then DrawMode.hist
                  else DrawMode.histSame
      ⟨s.series ++ [⟨run, h2, mode⟩], s.legend ++ [legendLabel run]⟩
    | _, _ => s

/-- The empty chart state after `ResetCanvas`. -/
def emptySession : PlotSession := ⟨[], []⟩

/-- `OverlayPlotter::Overlay` (part_000, lines 58-74): reset the canvas and
process every run of `runNumbers` in list order. -/
def Overlay (store : FileStore) (runNumbers : List String)
    (normalize : Bool) (histName : String) : PlotSession :=
  runNumbers.foldl
    (fun s run => OverlayRun store runNumbers normalize histName run s)
    emptySession

/-- Whether a run loads successfully for a histogram name: the file opens
and both the primary histogram and `hNClusters` are found. -/
def loadOk (store : FileStore) (histName : String) (run : String) : Bool :=
  match store run with
  | none => false
  | some file => (file.get histName).isSome && (file.get "hNClusters").isSome

/-- The series `OverlayRun` renders for a successfully loaded run (junk
value on a failed load, never used there). -/
def renderOf (store : FileStore) (runNumbers : List String)
    (normalize : Bool) (histName : String) (run : String) : Series :=
  match store run with
  | none => ⟨run, ⟨[], 0⟩, DrawMode.hist⟩
  | some file =>
    match file.get histName, file.get "hNClusters" with
    | some hist, some hNClusters =>
      ⟨run,
       (if normalize then
          OverlayNormalize hist hNClusters.entries (lookupRunData run).sebCount
        else hist),
       (if runNumbers.head? = some run then DrawMode.hist
        else DrawMode.histSame)⟩
    | _, _ => ⟨run, ⟨[], 0⟩, DrawMode.hist⟩

/-- `SinglePlotter` configuration (SinglePlotGenerator.cpp, lines 11-12,
44-47). -/
structure SinglePlotter where
  normalize : Bool
  applyCut : Bool
  cutValue : ℚ
  histToCut : List String

/-- `SinglePlotter::PlotRun` (SinglePlotGenerator.cpp, lines 98-159),
restricted to the histogram it saves: `none` when the file fails to open or
either histogram is missing; otherwise the primary histogram after optional
normalization (by `hNClusters` entries and the run's SEB count) and the
optional energy cut (applied only when enabled and the name is eligible). -/
def PlotRun (p : SinglePlotter) (store : FileStore) (run : String)
    (histName : String) (sebCount : ℤ) : Option TH1F :=
  match store run with
  | none => none
  | some file =>
    match file.get histName, file.get "hNClusters" with
    | some hist, some hNClusters =>
      let h1 := if p.normalize then
                  SingleNormalize hist hNClusters.entries sebCount
                else hist
      let h2 := if p.applyCut ∧ histName ∈ p.histToCut then
                  applyEnergyCut h1 p.cutValue
                else h1
      some h2
    | _, _ => none

/-- The menu of histogram names offered by `AskHistogramToCut`
(SinglePlotGenerator.cpp, line 171). -/
def cutMenuOptions : List String :=
  ["hClusterChi", "hClusterPt", "hClusterECore", "hTotalCaloE", "hTotalMBD"]

/-- The integers successfully extracted from one input line by the loop
`while (ss >> choice)`: tokens are parsed in order and extraction stops at
the first token that is not an integer (`none`). -/
def parseChoices : List (Option ℤ) → List ℤ
  | [] => []
  | none :: _ => []
  | some c :: rest => c :: parseChoices rest

/-- `AskHistogramToCut` (SinglePlotGenerator.cpp, lines 169-204): reads a
single input line, keeps every extracted choice in `1..5` (mapped to its
menu entry), and rejects each out-of-range choice with a diagnostic but
without re-prompting.  The function always returns after that one line. -/
def AskHistogramToCut (line : List (Option ℤ)) : List String :=
  (parseChoices line).filterMap fun choice =>
    if 1 ≤ choice ∧ choice ≤ 5 then cutMenuOptions.get? (choice - 1).toNat
    else none

/-- `AskEnergyCutValue` (SinglePlotGenerator.cpp, lines 207-233): reads
tokens until `cin >> energy` succeeds; each failed extraction (`none`) is
cleared and re-prompted.  An input with no numeric token never returns
(modelled as `none`). -/
def AskEnergyCutValue : List (Option ℚ) → Option ℚ
  | [] => none
  | some v :: _ => some v
  | none :: rest => AskEnergyCutValue rest

/-- `AskApplyCut` (SinglePlotGenerator.cpp, lines 236-257): reads tokens
until one equals `"yes"` or `"no"`; any other token is rejected and
re-prompted.  An input with no such token never returns (modelled as
`none`). -/
def AskApplyCut : List String → Option Bool
  | [] => none
  | t :: rest =>
    if t = "yes" then some true
    else if t = "no" then some false
    else AskApplyCut rest

/-- A small concrete histogram used in witnesses: bins at centers
0.5, 1.5, 2.5, 3.5 with contents 10, 20, 30, 40. -/
def demoHist : TH1F :=
  ⟨[⟨(1 : ℚ)/2, 10⟩, ⟨3/2, 20⟩, ⟨5/2, 30⟩, ⟨7/2, 40⟩], 4⟩

/-- A concrete result file holding `demoHist` under `"hClusterChi"` and an
event-count histogram with 100 entries under `"hNClusters"`. -/
def demoFile : RootFile :=
  ⟨fun name =>
    if name = "hClusterChi" then some demoHist
    else if name = "hNClusters" then some ⟨[], 100⟩
    else none⟩

/-- A concrete store in which run `"B"` fails to open and every other run
yields `demoFile`. -/
def demoStore : FileStore :=
  fun run => if run = "B" then none else some demoFile

/-- A concrete store in which run `"A"` fails to open and every other run
yields `demoFile`. -/
def demoStoreNoA : FileStore :=
  fun run => if run = "A" then none else some demoFile

lemma overlayRun_of_not_loadOk {store : FileStore} {histName run : String}
    (runNumbers : List String) (normalize : Bool) (s : PlotSession)
    (h : loadOk store histName run = false) :
    OverlayRun store runNumbers normalize histName run s = s := by
  cases hs : store run with
  | none => simp [OverlayRun, hs]
  | some file =>
    cases h1 : file.get histName with
    | none => simp [OverlayRun, hs, h1]
    | some hist =>
      cases h2 : file.get "hNClusters" with
      | none => simp [OverlayRun, hs, h1, h2]
      | some hN => simp [loadOk, hs, h1, h2] at h

lemma overlayRun_of_loadOk {store : FileStore} {histName run : String}
    (runNumbers : List String) (normalize : Bool) (s : PlotSession)
    (h : loadOk store histName run = true) :
    OverlayRun store runNumbers normalize histName run s
      = ⟨s.series ++ [renderOf store runNumbers normalize histName run],
         s.legend ++ [legendLabel run]⟩ := by
  cases hs : store run with
  | none => simp [loadOk, hs] at h
  | some file =>
    cases h1 : file.get histName with
    | none => simp [loadOk, hs, h1] at h
    | some hist =>
      cases h2 : file.get "hNClusters" with
      | none => simp [loadOk, hs, h1, h2] at h
      | some hN => simp [OverlayRun, renderOf, hs, h1, h2]

lemma overlay_foldl_spec (store : FileStore) (runNumbers : List String)
    (normalize : Bool) (histName : String) (l : List String) :
    ∀ s : PlotSession,
      l.foldl (fun s run => OverlayRun store runNumbers normalize histName run s) s
        = ⟨s.series ++ (l.filter (fun r => loadOk store histName r)).map
             (renderOf store runNumbers normalize histName),
           s.legend ++ (l.filter (fun r => loadOk store histName r)).map
             legendLabel⟩ := by
  induction l with
  | nil => intro s; simp
  | cons r l ih =>
    intro s
    rw [List.foldl_cons]
    cases hok : loadOk store histName r with
    | false =>
      rw [overlayRun_of_not_loadOk runNumbers normalize s hok, ih s]
      simp [hok]
    | true =>
      rw [overlayRun_of_loadOk runNumbers normalize s hok, ih]
      simp [hok]

lemma overlay_spec (store : FileStore) (runNumbers : List String)
    (normalize : Bool) (histName : String) :
    Overlay store runNumbers normalize histName
      = ⟨(runNumbers.filter (fun r => loadOk store histName r)).map
           (renderOf store runNumbers normalize histName),
         (runNumbers.filter (fun r => loadOk store histName r)).map
           legendLabel⟩ := by
  rw [Overlay, overlay_foldl_spec]
  simp [emptySession]

lemma plotRun_of_not_loadOk {store : FileStore} {histName run : String}
    (p : SinglePlotter) (sebCount : ℤ)
    (h : loadOk store histName run = false) :
    PlotRun p store run histName sebCount = none := by
  cases hs : store run with
  | none => simp [PlotRun, hs]
  | some file =>
    cases h1 : file.get histName with
    | none => simp [PlotRun, hs, h1]
    | some hist =>
      cases h2 : file.get "hNClusters" with
      | none => simp [PlotRun, hs, h1, h2]
      | some hN => simp [loadOk, hs, h1, h2] at h

lemma plotRun_of_loadOk {store : FileStore} {histName run : String}
    (p : SinglePlotter) (sebCount : ℤ)
    (h : loadOk store histName run = true) :
    (PlotRun p store run histName sebCount).isSome = true := by
  cases hs : store run with
  | none => simp [loadOk, hs] at h
  | some file =>
    cases h1 : file.get histName with
    | none => simp [loadOk, hs, h1] at h
    | some hist =>
      cases h2 : file.get "hNClusters" with
      | none => simp [loadOk, hs, h1, h2] at h
      | some hN => simp [PlotRun, hs, h1, h2]

/-- Claim C1: for every run with `nEvents > 0` and weight factor (SEB
count) `> 0`, the Normalize operation of either script multiplies every bin
by the scale `1 / (nEvents * weightFactor)`, i.e. sets every bin content to
the original content divided exactly by `nEvents * weightFactor`. -/
theorem C1_normalize_divides_exactly (h : TH1F) (nEvents nSEBs : ℤ)
    (hE : 0 < nEvents) (hS : 0 < nSEBs) :
    (OverlayNormalize h nEvents nSEBs
        = h.scale (1 / ((nEvents * nSEBs : ℤ) : ℚ)))
    ∧ (SingleNormalize h nEvents nSEBs
        = h.scale (1 / ((nEvents * nSEBs : ℤ) : ℚ)))
    ∧ ((OverlayNormalize h nEvents nSEBs).bins
        = h.bins.map
            (fun b => ⟨b.center, b.content / ((nEvents * nSEBs : ℤ) : ℚ)⟩)) := by
  refine ⟨?_, ?_, ?_⟩
  · rw [OverlayNormalize, if_pos ⟨hE, hS⟩]
  · rw [SingleNormalize, if_pos ⟨hE, hS⟩]
  · rw [OverlayNormalize, if_pos ⟨hE, hS⟩]
    simp only [TH1F.scale]
    apply List.map_congr_left
    intro b _
    rw [one_div, inv_mul_eq_div]

/-- Witness for C1 at `demoHist`, `nEvents = 100`, SEB count 7. -/
theorem C1_normalize_divides_exactly_witness :
    (0 : ℤ) < 100 ∧ (0 : ℤ) < 7 ∧
      OverlayNormalize demoHist 100 7
        = demoHist.scale (1 / ((100 * 7 : ℤ) : ℚ)) :=
  ⟨by decide, by decide,
   (C1_normalize_divides_exactly demoHist 100 7 (by decide) (by decide)).1⟩

/-- Claim C2: for every run where `nEvents == 0` or the weight factor is
`<= 0`, the Normalize operation of either script leaves every bin content
unchanged (a silent no-op). -/
theorem C2_normalize_noop_on_degenerate_inputs (h : TH1F)
    (nEvents nSEBs : ℤ) (hcase : nEvents = 0 ∨ nSEBs ≤ 0) :
    OverlayNormalize h nEvents nSEBs = h
      ∧ SingleNormalize h nEvents nSEBs = h := by
  have hneg : ¬ (0 < nEvents ∧ 0 < nSEBs) := by
    rcases hcase with h0 | h0
    · rintro ⟨h1, _⟩; omega
    · rintro ⟨_, h2⟩; omega
  exact ⟨by rw [OverlayNormalize, if_neg hneg],
         by rw [SingleNormalize, if_neg hneg]⟩

/-- Witness for C2 at `demoHist`, `nEvents = 0`, SEB count 7. -/
theorem C2_normalize_noop_on_degenerate_inputs_witness :
    ((0 : ℤ) = 0 ∨ (7 : ℤ) ≤ 0) ∧ OverlayNormalize demoHist 0 7 = demoHist :=
  ⟨Or.inl rfl,
   (C2_normalize_noop_on_degenerate_inputs demoHist 0 7 (Or.inl rfl)).1⟩

/-- Claim C6: with `nEvents > 0` and weight factor `> 0`, two successive
Normalize calls multiply each bin content by `1 / (nEvents * weightFactor)`
squared, so normalization compounds and is not idempotent. -/
theorem C6_normalize_compounds_not_idempotent (h : TH1F)
    (nEvents nSEBs : ℤ) (hE : 0 < nEvents) (hS : 0 < nSEBs) :
    ((OverlayNormalize (OverlayNormalize h nEvents nSEBs) nEvents nSEBs).bins
        = h.bins.map
            (fun b =>
              ⟨b.center,
               b.content * (1 / ((nEvents * nSEBs : ℤ) : ℚ)) ^ 2⟩))
    ∧ (∃ (h0 : TH1F) (n s : ℤ), 0 < n ∧ 0 < s ∧
        OverlayNormalize (OverlayNormalize h0 n s) n s
          ≠ OverlayNormalize h0 n s) := by
  constructor
  · rw [OverlayNormalize, if_pos ⟨hE, hS⟩, OverlayNormalize, if_pos ⟨hE, hS⟩]
    simp only [TH1F.scale, List.map_map]
    apply List.map_congr_left
    intro b _
    simp only [Function.comp_apply]
    congr 1
    ring
  · refine ⟨⟨[⟨1, 1⟩], 1⟩, 2, 1, by decide, by decide, ?_⟩
    norm_num [OverlayNormalize, TH1F.scale, TH1F.mk.injEq, Bin.mk.injEq]

/-- Witness for C6 at `demoHist`, `nEvents = 100`, SEB count 7. -/
theorem C6_normalize_compounds_not_idempotent_witness :
    (0 : ℤ) < 100 ∧ (0 : ℤ) < 7 ∧
      (OverlayNormalize (OverlayNormalize demoHist 100 7) 100 7).bins
        = demoHist.bins.map
            (fun b =>
              ⟨b.center, b.content * (1 / ((100 * 7 : ℤ) : ℚ)) ^ 2⟩) :=
  ⟨by decide, by decide,
   (C6_normalize_compounds_not_idempotent demoHist 100 7
      (by decide) (by decide)).1⟩

lemma renderOf_run (store : FileStore) (runNumbers : List String)
    (normalize : Bool) (histName run : String) :
    (renderOf store runNumbers normalize histName run).run = run := by
  cases hs : store run with
  | none => simp [renderOf, hs]
  | some file =>
    cases h1 : file.get histName with
    | none =>
      cases h2 : file.get "hNClusters" <;> simp [renderOf, hs, h1, h2]
    | some hist =>
      cases h2 : file.get "hNClusters" <;> simp [renderOf, hs, h1, h2]

lemma renderOf_mode {store : FileStore} {histName run : String}
    (runNumbers : List String) (normalize : Bool)
    (h : loadOk store histName run = true) :
    (renderOf store runNumbers normalize histName run).mode
      = if runNumbers.head? = some run then DrawMode.hist
        else DrawMode.histSame := by
  cases hs : store run with
  | none => simp [loadOk, hs] at h
  | some file =>
    cases h1 : file.get histName with
    | none => simp [loadOk, hs, h1] at h
    | some hist =>
      cases h2 : file.get "hNClusters" with
      | none => simp [loadOk, hs, h1, h2] at h
      | some hN => simp [renderOf, hs, h1, h2]

lemma overlay_legend_eq (store : FileStore) (runNumbers : List String)
    (normalize : Bool) (histName : String) :
    (Overlay store runNumbers normalize histName).legend
      = (runNumbers.filter (fun r => loadOk store histName r)).map
          legendLabel := by
  rw [overlay_spec]

lemma overlay_series_runs (store : FileStore) (runNumbers : List String)
    (normalize : Bool) (histName : String) :
    (Overlay store runNumbers normalize histName).series.map Series.run
      = runNumbers.filter (fun r => loadOk store histName r) := by
  rw [overlay_spec]
  simp only [List.map_map]
  have hcongr : ∀ r ∈ runNumbers.filter (fun r => loadOk store histName r),
      (Series.run ∘ renderOf store runNumbers normalize histName) r = id r := by
    intro r _
    simp [renderOf_run]
  rw [List.map_congr_left hcongr, List.map_id]

/-- Claim C3: the energy-cut operation zeroes exactly the bins whose center
is strictly below the threshold, leaves the others untouched, yields
`[0, 0, 30, 40]`-style results on the `[0.5, 1.5, 2.5, 3.5]` example with
threshold 2, and is applied by `PlotRun` whenever the cut is enabled and
the histogram name is eligible. -/
theorem C3_energy_cut_zeroes_below_threshold :
    (∀ (hist : TH1F) (cutValue : ℚ) (i : ℕ),
        (applyEnergyCut hist cutValue).bins.get? i
          = (hist.bins.get? i).map
              (fun b => if b.center < cutValue then ⟨b.center, 0⟩ else b))
    ∧ ((applyEnergyCut demoHist 2).bins
        = [⟨1/2, 0⟩, ⟨3/2, 0⟩, ⟨5/2, 30⟩, ⟨7/2, 40⟩])
    ∧ (∀ (p : SinglePlotter) (store : FileStore) (run histName : String)
         (sebCount : ℤ) (file : RootFile) (hist hN : TH1F),
        p.applyCut = true → histName ∈ p.histToCut →
        store run = some file → file.get histName = some hist →
        file.get "hNClusters" = some hN →
        PlotRun p store run histName sebCount
          = some (applyEnergyCut
              (if p.normalize then SingleNormalize hist hN.entries sebCount
               else hist)
              p.cutValue)) := by
  refine ⟨?_, ?_, ?_⟩
  · intro hist cutValue i
    simp [applyEnergyCut]
  · norm_num [applyEnergyCut, demoHist]
  · intro p store run histName sebCount file hist hN hcut hmem hs h1 h2
    simp [PlotRun, hs, h1, h2, hcut, hmem]

/-- Witness for C3: with the cut enabled at threshold 2 for
`"hClusterChi"`, `PlotRun` on a loadable run saves the normalized histogram
with the energy cut applied. -/
theorem C3_energy_cut_zeroes_below_threshold_witness :
    (⟨true, true, 2, ["hClusterChi"]⟩ : SinglePlotter).applyCut = true
    ∧ "hClusterChi" ∈ (["hClusterChi"] : List String)
    ∧ PlotRun ⟨true, true, 2, ["hClusterChi"]⟩ demoStore "A" "hClusterChi" 7
        = some (applyEnergyCut (SingleNormalize demoHist 100 7) 2) := by
  refine ⟨rfl, by simp, ?_⟩
  have h := C3_energy_cut_zeroes_below_threshold.2.2
      ⟨true, true, 2, ["hClusterChi"]⟩ demoStore "A" "hClusterChi" 7
      demoFile demoHist ⟨[], 100⟩ rfl (by simp) rfl rfl rfl
  simpa using h

/-- Claim C4: a run contributes a series and a legend entry to the overlay
session exactly when its file opens and both histograms are found; a failed
run leaves the session unchanged, and in the per-run script `PlotRun` saves
a plot exactly when the lookups succeed. -/
theorem C4_run_contributes_iff_lookup_succeeds (store : FileStore)
    (runNumbers : List String) (normalize : Bool) (histName : String) :
    ((Overlay store runNumbers normalize histName).legend
        = (runNumbers.filter (fun r => loadOk store histName r)).map
            legendLabel)
    ∧ ((Overlay store runNumbers normalize histName).series.map Series.run
        = runNumbers.filter (fun r => loadOk store histName r))
    ∧ (∀ (run : String) (s : PlotSession),
        loadOk store histName run = false →
          OverlayRun store runNumbers normalize histName run s = s)
    ∧ (∀ (p : SinglePlotter) (run : String) (sebCount : ℤ),
        loadOk store histName run = false →
          PlotRun p store run histName sebCount = none)
    ∧ (∀ (p : SinglePlotter) (run : String) (sebCount : ℤ),
        loadOk store histName run = true →
          (PlotRun p store run histName sebCount).isSome = true) := by
  refine ⟨overlay_legend_eq store runNumbers normalize histName,
          overlay_series_runs store runNumbers normalize histName,
          ?_, ?_, ?_⟩
  · intro run s h
    exact overlayRun_of_not_loadOk runNumbers normalize s h
  · intro p run sebCount h
    exact plotRun_of_not_loadOk p sebCount h
  · intro p run sebCount h
    exact plotRun_of_loadOk p sebCount h

/-- Witness for C4: run `"B"` fails to open in `demoStore`, so it changes
nothing in the session and `PlotRun` saves nothing. -/
theorem C4_run_contributes_iff_lookup_succeeds_witness :
    loadOk demoStore "hClusterChi" "B" = false
    ∧ OverlayRun demoStore ["A", "B", "C"] true "hClusterChi" "B"
        emptySession = emptySession
    ∧ PlotRun ⟨true, false, 0, []⟩ demoStore "B" "hClusterChi" 8 = none :=
  ⟨rfl,
   (C4_run_contributes_iff_lookup_succeeds demoStore ["A", "B", "C"] true
      "hClusterChi").2.2.1 "B" emptySession rfl,
   (C4_run_contributes_iff_lookup_succeeds demoStore ["A", "B", "C"] true
      "hClusterChi").2.2.2.1 ⟨true, false, 0, []⟩ "B" 8 rfl⟩

/-- Claim C5: runs are processed in run-list order, and the legend lists
exactly the successful runs in that order — a sublist of the full run
order — regardless of which runs fail; in particular this holds for any
three-run order `[a, b, c]`. -/
theorem C5_legend_order_follows_run_order (store : FileStore)
    (runNumbers : List String) (normalize : Bool) (histName : String) :
    ((Overlay store runNumbers normalize histName).legend
        = (runNumbers.filter (fun r => loadOk store histName r)).map
            legendLabel)
    ∧ ((Overlay store runNumbers normalize histName).legend.Sublist
        (runNumbers.map legendLabel))
    ∧ (∀ a b c : String,
        (Overlay store [a, b, c] normalize histName).legend
          = ([a, b, c].filter (fun r => loadOk store histName r)).map
              legendLabel) := by
  refine ⟨overlay_legend_eq store runNumbers normalize histName, ?_, ?_⟩
  · rw [overlay_legend_eq]
    exact (List.filter_sublist runNumbers).map legendLabel
  · intro a b c
    exact overlay_legend_eq store [a, b, c] normalize histName

/-- Claim C7: when the first listed run loads, it is rendered fresh and, in
a duplicate-free run list, every later rendered run is composited; the
legend holds exactly one entry per rendered series, labeled with its run
identifier. -/
theorem C7_first_fresh_rest_composited_one_legend_entry (store : FileStore)
    (runNumbers : List String) (normalize : Bool) (histName : String)
    (r0 : String) (hhead : runNumbers.head? = some r0)
    (hnodup : runNumbers.Nodup)
    (hok : loadOk store histName r0 = true) :
    (∃ rest,
        (Overlay store runNumbers normalize histName).series.map
            (fun e => (e.run, e.mode))
          = (r0, DrawMode.hist) :: rest
        ∧ ∀ q ∈ rest, q.2 = DrawMode.histSame)
    ∧ ((Overlay store runNumbers normalize histName).legend
        = (Overlay store runNumbers normalize histName).series.map
            (fun e => legendLabel e.run))
    ∧ ((Overlay store runNumbers normalize histName).series.map
        Series.run).Nodup := by
  obtain ⟨tl, rfl⟩ : ∃ tl, runNumbers = r0 :: tl := by
    cases runNumbers with
    | nil => simp at hhead
    | cons x tl =>
      refine ⟨tl, ?_⟩
      simp only [List.head?_cons, Option.some.injEq] at hhead
      rw [hhead]
  have hr0tl : r0 ∉ tl := (List.nodup_cons.1 hnodup).1
  refine ⟨?_, ?_, ?_⟩
  · rw [overlay_spec]
    rw [List.filter_cons_of_pos hok]
    refine ⟨((tl.filter (fun r => loadOk store histName r)).map
        (fun r => ((renderOf store (r0 :: tl) normalize histName r).run,
                   (renderOf store (r0 :: tl) normalize histName r).mode))),
      ?_, ?_⟩
    · simp only [List.map_cons, List.map_map]
      congr 1
      · rw [renderOf_run, renderOf_mode (r0 :: tl) normalize hok]
        simp
    · intro q hq
      obtain ⟨r, hr, rfl⟩ := List.mem_map.1 hq
      have hmem := List.mem_filter.1 hr
      have hokr : loadOk store histName r = true := hmem.2
      have hne : r0 ≠ r := by
        rintro rfl
        exact hr0tl hmem.1
      rw [renderOf_mode (r0 :: tl) normalize hokr]
      simp [hne]
  · rw [overlay_legend_eq, overlay_spec]
    simp only [List.map_map]
    apply List.map_congr_left
    intro r _
    simp [Function.comp, renderOf_run]
  · rw [overlay_series_runs]
    exact hnodup.filter _

/-- Witness for C7 on `demoStore` with run order `["A", "B", "C"]`. -/
theorem C7_first_fresh_rest_composited_one_legend_entry_witness :
    (["A", "B", "C"] : List String).head? = some "A"
    ∧ (["A", "B", "C"] : List String).Nodup
    ∧ loadOk demoStore "hClusterChi" "A" = true
    ∧ (Overlay demoStore ["A", "B", "C"] true "hClusterChi").legend
        = (Overlay demoStore ["A", "B", "C"] true "hClusterChi").series.map
            (fun e => legendLabel e.run) :=
  ⟨rfl, by decide, rfl,
   (C7_first_fresh_rest_composited_one_legend_entry demoStore
      ["A", "B", "C"] true "hClusterChi" "A" rfl (by decide) rfl).2.1⟩

/-- Claim C10: the fresh-draw branch compares against the first element of
the run list, not the first success: if the first listed run fails to load,
every rendered series of the session uses the composite (overlay) draw
option. -/
theorem C10_no_fresh_draw_when_first_run_fails (store : FileStore)
    (runNumbers : List String) (normalize : Bool) (histName : String)
    (r0 : String) (hhead : runNumbers.head? = some r0)
    (hfail : loadOk store histName r0 = false) :
    ∀ e ∈ (Overlay store runNumbers normalize histName).series,
      e.mode = DrawMode.histSame := by
  intro e he
  rw [overlay_spec] at he
  obtain ⟨r, hr, rfl⟩ := List.mem_map.1 he
  have hokr : loadOk store histName r = true := (List.mem_filter.1 hr).2
  have hne : r0 ≠ r := by
    rintro rfl
    rw [hokr] at hfail
    exact Bool.noConfusion hfail
  rw [renderOf_mode runNumbers normalize hokr, hhead]
  simp [hne]

/-- Witness for C10: with run `"A"` failing in `demoStoreNoA` and run order
`["A", "B", "C"]`, every rendered series is drawn with `"HIST SAME"`. -/
theorem C10_no_fresh_draw_when_first_run_fails_witness :
    loadOk demoStoreNoA "hClusterChi" "A" = false
    ∧ ∀ e ∈ (Overlay demoStoreNoA ["A", "B", "C"] true "hClusterChi").series,
        e.mode = DrawMode.histSame :=
  ⟨rfl,
   C10_no_fresh_draw_when_first_run_fails demoStoreNoA ["A", "B", "C"] true
     "hClusterChi" "A" rfl rfl⟩

lemma seb_lookup_agree (l1 : List (String × RunData)) (l2 : List (String × ℤ))
    (hl : l1.map (fun e => (e.1, e.2.sebCount)) = l2) (run : String) :
    (((l1.find? (fun p => p.1 = run)).map Prod.snd).getD
        ⟨.white0, 0⟩).sebCount
      = ((l2.find? (fun p => p.1 = run)).map Prod.snd).getD 0 := by
  induction l1 generalizing l2 with
  | nil =>
    subst hl
    rfl
  | cons e l ih =>
    subst hl
    by_cases he : e.1 = run
    · simp [List.find?_cons, he]
    · simp only [List.map_cons, List.find?_cons, he, decide_eq_true_eq,
        decide_False]
      exact ih (l.map (fun e => (e.1, e.2.sebCount))) rfl

/-- Claim C9: the overlay script and the per-run script implement the same
normalization — their Normalize functions are extensionally equal — and
their hardcoded run tables assign the same SEB count to every run
identifier, so on any run and histogram both scripts normalize
identically. -/
theorem C9_overlay_and_single_normalization_agree :
    (∀ (h : TH1F) (nEvents nSEBs : ℤ),
        OverlayNormalize h nEvents nSEBs = SingleNormalize h nEvents nSEBs)
    ∧ (overlayRunDataMap.map (fun e => (e.1, e.2.sebCount))
        = singleRunDataMap)
    ∧ (∀ run : String, overlaySebOf run = singleSebOf run)
    ∧ (∀ (run : String) (h : TH1F) (nEvents : ℤ),
        OverlayNormalize h nEvents (overlaySebOf run)
          = SingleNormalize h nEvents (singleSebOf run)) := by
  have hnorm : ∀ (h : TH1F) (nEvents nSEBs : ℤ),
      OverlayNormalize h nEvents nSEBs = SingleNormalize h nEvents nSEBs :=
    fun h nE nS => rfl
  have htab : overlayRunDataMap.map (fun e => (e.1, e.2.sebCount))
      = singleRunDataMap := rfl
  have hseb : ∀ run : String, overlaySebOf run = singleSebOf run := by
    intro run
    unfold overlaySebOf lookupRunData singleSebOf
    rw [← htab]
    exact seb_lookup_agree overlayRunDataMap _ rfl run
  refine ⟨hnorm, htab, hseb, ?_⟩
  intro run h nEvents
  rw [hseb run]
  exact hnorm h nEvents (singleSebOf run)

/-- Claim C8 counterexample: an input line whose only entry is the
out-of-range menu index 7 is rejected with a diagnostic but the user is
not re-prompted — `AskHistogramToCut` still returns (with an empty
selection) after that single line, so it does not re-prompt until a valid
value is entered. -/
theorem C8_menu_index_not_reprompted_counterexample :
    ¬ (1 ≤ (7 : ℤ) ∧ (7 : ℤ) ≤ 5)
    ∧ AskHistogramToCut [some 7] = [] :=
  ⟨by decide, rfl⟩

/-- Claim C8 amended: `AskEnergyCutValue` and `AskApplyCut` re-prompt
indefinitely until a valid token arrives; `AskHistogramToCut`, however,
reads a single line — each out-of-range choice is rejected and dropped
without re-prompting, the rest of the same line is still processed, a
valid choice contributes its menu entry, and a non-numeric token ends the
parsing of the line. -/
theorem C8_malformed_input_handling :
    (∀ rest : List (Option ℚ),
        AskEnergyCutValue (none :: rest) = AskEnergyCutValue rest)
    ∧ (∀ (v : ℚ) (rest : List (Option ℚ)),
        AskEnergyCutValue (some v :: rest) = some v)
    ∧ (∀ (t : String) (rest : List String), t ≠ "yes" → t ≠ "no" →
        AskApplyCut (t :: rest) = AskApplyCut rest)
    ∧ (∀ rest : List String, AskApplyCut ("yes" :: rest) = some true)
    ∧ (∀ rest : List String, AskApplyCut ("no" :: rest) = some false)
    ∧ (∀ (c : ℤ) (rest : List (Option ℤ)), ¬ (1 ≤ c ∧ c ≤ 5) →
        AskHistogramToCut (some c :: rest) = AskHistogramToCut rest)
    ∧ (∀ (c : ℤ) (rest : List (Option ℤ)), 1 ≤ c → c ≤ 5 →
        ∃ name, cutMenuOptions.get? (c - 1).toNat = some name
          ∧ AskHistogramToCut (some c :: rest)
              = name :: AskHistogramToCut rest)
    ∧ (∀ rest : List (Option ℤ), AskHistogramToCut (none :: rest) = []) := by
  refine ⟨fun rest => rfl, fun v rest => rfl, ?_, fun rest => rfl,
          fun rest => rfl, ?_, ?_, fun rest => rfl⟩
  · intro t rest h1 h2
    simp [AskApplyCut, h1, h2]
  · intro c rest hc
    simp only [AskHistogramToCut, parseChoices]
    rw [List.filterMap_cons_none]
    rw [if_neg hc]
  · intro c rest h1 h5
    interval_cases c
    · exact ⟨"hClusterChi", rfl, rfl⟩
    · exact ⟨"hClusterPt", rfl, rfl⟩
    · exact ⟨"hClusterECore", rfl, rfl⟩
    · exact ⟨"hTotalCaloE", rfl, rfl⟩
    · exact ⟨"hTotalMBD", rfl, rfl⟩

/-- Witness for C8: the token `"maybe"` is rejected and re-prompted by
`AskApplyCut`, while the out-of-range index 7 is dropped by
`AskHistogramToCut` with the rest of the same line still processed. -/
theorem C8_malformed_input_handling_witness :
    ("maybe" ≠ "yes") ∧ ("maybe" ≠ "no") ∧ ¬ (1 ≤ (7 : ℤ) ∧ (7 : ℤ) ≤ 5)
    ∧ AskApplyCut ["maybe", "yes"] = AskApplyCut ["yes"]
    ∧ AskHistogramToCut [some 7, some 2] = AskHistogramToCut [some 2] :=
  ⟨by decide, by decide, by decide,
   C8_malformed_input_handling.2.2.1 "maybe" ["yes"] (by decide) (by decide),
   C8_malformed_input_handling.2.2.2.2.2.1 7 [some 2] (by decide)⟩

end QACode
